import Mathlib

/-!
Verification of the Connect-Four session layer (Go sources: `database.go`,
`game_manager.go` with private rooms, `kafka.go` player/transport part).

The Go code is shallowly embedded as pure Lean functions:
* the board is a total function `Fin 6 → Fin 7 → Nat` (0 = empty, 1 = Player1,
  2 = Player2), matching the zero-initialized Go array `[6][7]int`;
* `Game` mirrors the mutable `Game` struct, and every handler returns the new
  state together with the list of observable side effects (frames sent to
  players, analytics events, timers armed) instead of mutating in place;
* the manager (`GameManager`) state is a record of association lists mirroring
  its Go maps; Go map `delete` removes the key, the room-removal loop in
  `UnregisterPlayer` removes the first matching entry (it breaks after one);
* timers (`time.AfterFunc`) are modelled by exposing each timer callback as
  its own transition function, applied at an arbitrary later state, exactly as
  the Go callbacks run; arming a timer is recorded as an observable output;
* wall-clock fields (`StartTime`, `EndTime`) and the database/Kafka sinks are
  out of scope (the spec lists them as external collaborators); emitting an
  analytics event is kept as an opaque output token.
-/

namespace ConFour

abbrev Rows : Nat := 6
abbrev Cols : Nat := 7
abbrev EmptyCell : Nat := 0
abbrev Player1 : Nat := 1
abbrev Player2 : Nat := 2

/-- The 6×7 grid of cell marks, row 0 at the top as in the Go array. -/
abbrev Board := Fin 6 → Fin 7 → Nat

/-- Read a cell by `Nat` coordinates; out-of-range reads (which the Go code
never performs) return the empty mark. -/
def bGet (b : Board) (r c : Nat) : Nat :=
  if h : r < 6 ∧ c < 7 then b ⟨r, h.1⟩ ⟨c, h.2⟩ else 0

/-- Write a cell by `Nat` coordinates. -/
def bSet (b : Board) (r c v : Nat) : Board :=
  fun i j => if i.val = r ∧ j.val = c then v else b i j

/-- The zero value of the Go board array: all cells empty. -/
def board0 : Board := fun _ _ => 0

@[simp] theorem bGet_inbounds (b : Board) (r : Fin 6) (c : Fin 7) :
    bGet b r.val c.val = b r c := by
  simp [bGet, r.isLt, c.isLt]

theorem bGet_eq (b : Board) {r c : Nat} (hr : r < 6) (hc : c < 7) :
    bGet b r c = b ⟨r, hr⟩ ⟨c, hc⟩ := by
  simp [bGet, hr, hc]

theorem bGet_bSet_same (b : Board) {r c : Nat} (hr : r < 6) (hc : c < 7) (v : Nat) :
    bGet (bSet b r c v) r c = v := by
  simp [bGet, bSet, hr, hc]

theorem bGet_bSet_other (b : Board) {r c r2 c2 : Nat} (v : Nat)
    (h : ¬(r2 = r ∧ c2 = c)) : bGet (bSet b r c v) r2 c2 = bGet b r2 c2 := by
  by_cases hb : r2 < 6 ∧ c2 < 7
  · simp only [bGet, bSet, hb, dif_pos, if_neg h]
  · simp [bGet, hb]

/-- `makeMove`'s descending row scan (Go: `for r := Rows - 1; r >= 0; r--`):
`findRowAux b col (n+1)` first tests row `n`, then the rows above it. -/
def findRowAux (b : Board) (col : Nat) : Nat → Option Nat
  | 0 => none
  | n + 1 => if bGet b n col == 0 then some n else findRowAux b col n

/-- The lowest empty row of a column, if any. -/
def findRow (b : Board) (col : Nat) : Option Nat := findRowAux b col 6

/-- `(g *Game) makeMove(col, playerNum)`: validate the column, then drop the
mark into the lowest empty row; the Go error strings are kept verbatim. -/
def makeMove (b : Board) (col : Int) (playerNum : Nat) :
    Except String (Board × Nat) :=
  if col < 0 ∨ 7 ≤ col then Except.error "Invalid column"
  else
    match findRow b col.toNat with
    | some r => Except.ok (bSet b r col.toNat playerNum, r)
    | none => Except.error "Column is full"

/-- The running-count scan of `checkWin` (Go: `count++` on a match, reset to 0
otherwise, success as soon as `count >= 4`), parameterized by the count so far. -/
def scanAux : Nat → List Bool → Bool
  | _, [] => false
  | k, x :: rest =>
    if x then (if 4 ≤ k + 1 then true else scanAux (k + 1) rest)
    else scanAux 0 rest

/-- One full line scan of `checkWin`, starting from count 0. -/
def scan4 (l : List Bool) : Bool := scanAux 0 l

/-- The horizontal line scanned by `checkWin`: row `lastRow`, columns 0..6. -/
def rowLine (b : Board) (r p : Nat) : List Bool :=
  (List.range 7).map (fun c => bGet b r c == p)

/-- The vertical line scanned by `checkWin`: column `lastCol`, rows 0..5. -/
def colLine (b : Board) (c p : Nat) : List Bool :=
  (List.range 6).map (fun r => bGet b r c == p)

/-- The top-left-to-bottom-right diagonal through `(r, c)` as scanned by
`checkWin`: start at `(r - min r c, c - min r c)` and walk `(+1, +1)` while in
bounds. -/
def diagDownLine (b : Board) (r c p : Nat) : List Bool :=
  let r0 := r - min r c
  let c0 := c - min r c
  (List.range (min (6 - r0) (7 - c0))).map
    (fun k => bGet b (r0 + k) (c0 + k) == p)

/-- The bottom-left-to-top-right diagonal through `(r, c)` as scanned by
`checkWin`: start at `(r + m, c - m)` for `m = min (5 - r) c` and walk
`(-1, +1)` while in bounds. -/
def diagUpLine (b : Board) (r c p : Nat) : List Bool :=
  let m := min (5 - r) c
  let r1 := r + m
  let c1 := c - m
  (List.range (min (r1 + 1) (7 - c1))).map
    (fun k => bGet b (r1 - k) (c1 + k) == p)

/-- `(g *Game) checkWin(lastRow, lastCol, playerNum)`: scan the row, the
column and the two diagonals through the last-placed cell. -/
def checkWin (b : Board) (lastRow lastCol p : Nat) : Bool :=
  scan4 (rowLine b lastRow p) || scan4 (colLine b lastCol p) ||
    scan4 (diagDownLine b lastRow lastCol p) ||
    scan4 (diagUpLine b lastRow lastCol p)

/-- `(g *Game) checkDraw()`: the board counts as full when the top row has no
empty cell. -/
def checkDraw (b : Board) : Bool :=
  (List.range 7).all (fun c => !(bGet b 0 c == 0))

/-! ### Characterization of the running-count scan -/

/-- A list of booleans contains four consecutive `true`s. -/
inductive HasFour : List Bool → Prop
  | head (rest : List Bool) : HasFour (true :: true :: true :: true :: rest)
  | tail (x : Bool) {l : List Bool} : HasFour l → HasFour (x :: l)

theorem scanAux_of_hasFour {l : List Bool} (h : HasFour l) :
    ∀ k, scanAux k l = true := by
  induction h with
  | head rest =>
    intro k
    simp only [scanAux, if_true]
    split_ifs <;> first | rfl | omega
  | tail x hl ih =>
    intro k
    cases x <;> simp [scanAux, ih]

theorem hasFour_replicate_append {l : List Bool} (k : Nat) (h : HasFour l) :
    HasFour (List.replicate k true ++ l) := by
  induction k with
  | zero => simpa using h
  | succ n ih => simpa [List.replicate_succ] using HasFour.tail true ih

theorem hasFour_replicate_true {k : Nat} (rest : List Bool) (h : 3 ≤ k) :
    HasFour (List.replicate k true ++ true :: rest) := by
  induction k, h using Nat.le_induction with
  | base => exact HasFour.head rest
  | succ n hn ih => simpa [List.replicate_succ] using HasFour.tail true ih

theorem hasFour_of_scanAux :
    ∀ (l : List Bool) (k : Nat), scanAux k l = true →
      HasFour (List.replicate k true ++ l) := by
  intro l
  induction l with
  | nil => intro k h; simp [scanAux] at h
  | cons x rest ih =>
    intro k h
    cases x with
    | true =>
      by_cases hk : 4 ≤ k + 1
      · exact hasFour_replicate_true rest (by omega)
      · have h2 : scanAux (k + 1) rest = true := by
          simpa [scanAux, hk] using h
        have := ih (k + 1) h2
        rwa [List.replicate_succ', List.append_assoc] at this
    | false =>
      have h2 : scanAux 0 rest = true := by simpa [scanAux] using h
      have := ih 0 h2
      simp only [List.replicate, List.nil_append] at this
      exact hasFour_replicate_append k (HasFour.tail false this)

theorem scan4_eq_true_iff {l : List Bool} : scan4 l = true ↔ HasFour l := by
  constructor
  · intro h
    have := hasFour_of_scanAux l 0 h
    simpa using this
  · intro h
    exact scanAux_of_hasFour h 0

/-- Build `HasFour` from four consecutive positions that hold `true`. -/
theorem hasFour_of_get? :
    ∀ (l : List Bool) (i : Nat),
      l.get? i = some true → l.get? (i + 1) = some true →
      l.get? (i + 2) = some true → l.get? (i + 3) = some true → HasFour l := by
  intro l
  induction l with
  | nil => intro i h0 _ _ _; simp at h0
  | cons x rest ih =>
    intro i h0 h1 h2 h3
    cases i with
    | succ n =>
      simp only [List.get?_cons_succ] at h0 h1 h2 h3
      exact HasFour.tail x (ih n h0 h1 h2 h3)
    | zero =>
      simp only [List.get?_cons_zero, Option.some.injEq] at h0
      subst h0
      cases rest with
      | nil => simp at h1
      | cons y t1 =>
        simp only [List.get?_cons_succ, List.get?_cons_zero,
          Option.some.injEq] at h1
        subst h1
        cases t1 with
        | nil => simp at h2
        | cons z t2 =>
          simp only [List.get?_cons_succ, List.get?_cons_zero,
            Option.some.injEq] at h2
          subst h2
          cases t2 with
          | nil => simp at h3
          | cons w t3 =>
            simp only [List.get?_cons_succ, List.get?_cons_zero,
              Option.some.injEq] at h3
            subst h3
            exact HasFour.head t3

/-- Extract four consecutive `true` positions from `HasFour`. -/
theorem get?_of_hasFour {l : List Bool} (h : HasFour l) :
    ∃ i, i + 3 < l.length ∧ l.get? i = some true ∧ l.get? (i + 1) = some true ∧
      l.get? (i + 2) = some true ∧ l.get? (i + 3) = some true := by
  induction h with
  | head rest => exact ⟨0, by simp [Nat.succ_le_succ], rfl, rfl, rfl, rfl⟩
  | tail x hl ih =>
    obtain ⟨i, hlen, h0, h1, h2, h3⟩ := ih
    exact ⟨i + 1, by simp only [List.length_cons]; omega, by simpa using h0,
      by simpa using h1, by simpa using h2, by simpa using h3⟩

theorem get?_range_map (f : Nat → Bool) (n i : Nat) (h : i < n) :
    ((List.range n).map f).get? i = some (f i) := by
  rw [List.get?_map, List.get?_range h]
  rfl

theorem scan4_map_range (f : Nat → Bool) (n i : Nat) (h3 : i + 3 < n)
    (h : ∀ j, j ≤ 3 → f (i + j) = true) :
    scan4 ((List.range n).map f) = true := by
  rw [scan4_eq_true_iff]
  apply hasFour_of_get? _ i
  · rw [get?_range_map f n i (by omega)]
    have h0 := h 0 (by omega)
    rw [Nat.add_zero] at h0
    rw [h0]
  · rw [get?_range_map f n (i + 1) (by omega), h 1 (by omega)]
  · rw [get?_range_map f n (i + 2) (by omega), h 2 (by omega)]
  · rw [get?_range_map f n (i + 3) (by omega), h 3 (by omega)]

theorem exists_of_scan4_map_range (f : Nat → Bool) (n : Nat)
    (h : scan4 ((List.range n).map f) = true) :
    ∃ i, i + 3 < n ∧ ∀ j, j ≤ 3 → f (i + j) = true := by
  rw [scan4_eq_true_iff] at h
  obtain ⟨i, hlen, h0, h1, h2, h3⟩ := get?_of_hasFour h
  rw [List.length_map, List.length_range] at hlen
  refine ⟨i, hlen, ?_⟩
  intro j hj
  interval_cases j
  · rw [get?_range_map f n i (by omega)] at h0
    rw [Nat.add_zero]
    exact Option.some.injEq _ _ ▸ (by simpa using h0)
  · rw [get?_range_map f n (i + 1) (by omega)] at h1
    simpa using h1
  · rw [get?_range_map f n (i + 2) (by omega)] at h2
    simpa using h2
  · rw [get?_range_map f n (i + 3) (by omega)] at h3
    simpa using h3

/-! ### Winning runs, stated geometrically

These predicates formalize the spec's notion of a run of four same-marked
cells; they are the claim side, to be compared with the scanning code. -/

/-- A horizontal run of four cells of mark `p` through cell `(r, c)`. -/
def horizThrough (b : Board) (r c p : Nat) : Prop :=
  ∃ c0 : Fin 4, c0.val ≤ c ∧ c ≤ c0.val + 3 ∧
    ∀ j : Fin 4, bGet b r (c0.val + j.val) = p

/-- A vertical run of four cells of mark `p` through cell `(r, c)`. -/
def vertThrough (b : Board) (r c p : Nat) : Prop :=
  ∃ r0 : Fin 3, r0.val ≤ r ∧ r ≤ r0.val + 3 ∧
    ∀ j : Fin 4, bGet b (r0.val + j.val) c = p

/-- A top-left-to-bottom-right diagonal run of four cells of mark `p` through
cell `(r, c)`: the cell sits at offset `d` inside the window. -/
def diagDownThrough (b : Board) (r c p : Nat) : Prop :=
  ∃ r0 : Fin 3, ∃ c0 : Fin 4, ∃ d : Fin 4,
    r = r0.val + d.val ∧ c = c0.val + d.val ∧
    ∀ j : Fin 4, bGet b (r0.val + j.val) (c0.val + j.val) = p

/-- A bottom-left-to-top-right diagonal run of four cells of mark `p` through
cell `(r, c)`: the window occupies rows `r0 + 3` down to `r0`, columns `c0` up
to `c0 + 3`, and the cell sits at offset `d` from its bottom-left end. -/
def diagUpThrough (b : Board) (r c p : Nat) : Prop :=
  ∃ r0 : Fin 3, ∃ c0 : Fin 4, ∃ d : Fin 4,
    r = r0.val + 3 - d.val ∧ c = c0.val + d.val ∧
    ∀ j : Fin 4, bGet b (r0.val + 3 - j.val) (c0.val + j.val) = p

/-- The last-placed cell `(r, c)` completes some run of four `p`-cells. -/
def winThrough (b : Board) (r c p : Nat) : Prop :=
  horizThrough b r c p ∨ vertThrough b r c p ∨
    diagDownThrough b r c p ∨ diagUpThrough b r c p

/-- Some run of four `p`-cells exists anywhere on the board. -/
def boardWin (b : Board) (p : Nat) : Prop :=
  (∃ r : Fin 6, ∃ c0 : Fin 4, ∀ j : Fin 4, bGet b r.val (c0.val + j.val) = p) ∨
  (∃ r0 : Fin 3, ∃ c : Fin 7, ∀ j : Fin 4, bGet b (r0.val + j.val) c.val = p) ∨
  (∃ r0 : Fin 3, ∃ c0 : Fin 4,
    ∀ j : Fin 4, bGet b (r0.val + j.val) (c0.val + j.val) = p) ∨
  (∃ r0 : Fin 3, ∃ c0 : Fin 4,
    ∀ j : Fin 4, bGet b (r0.val + 3 - j.val) (c0.val + j.val) = p)

instance (b : Board) (r c p : Nat) : Decidable (winThrough b r c p) := by
  unfold winThrough horizThrough vertThrough diagDownThrough diagUpThrough
  infer_instance

instance (b : Board) (p : Nat) : Decidable (boardWin b p) := by
  unfold boardWin
  infer_instance

/-- A geometric run through the placed cell makes the scanning code succeed. -/
theorem checkWin_of_winThrough {b : Board} {r c p : Nat}
    (h : winThrough b r c p) : checkWin b r c p = true := by
  rcases h with h | h | h | h
  · obtain ⟨c0, _, _, hw⟩ := h
    have hs : scan4 (rowLine b r p) = true := by
      apply scan4_map_range _ 7 c0.val (by omega)
      intro j hj
      have := hw ⟨j, by omega⟩
      simp [this]
    simp [checkWin, hs]
  · obtain ⟨r0, _, _, hw⟩ := h
    have hs : scan4 (colLine b c p) = true := by
      apply scan4_map_range _ 6 r0.val (by omega)
      intro j hj
      have := hw ⟨j, by omega⟩
      simp [this]
    simp [checkWin, hs]
  · obtain ⟨r0, c0, d, hr, hc, hw⟩ := h
    have hd1 : d.val ≤ min r c := Nat.le_min.mpr ⟨by omega, by omega⟩
    have hr0 : r0.val ≤ 2 := by omega
    have hc0 : c0.val ≤ 3 := by omega
    have hs : scan4 (diagDownLine b r c p) = true := by
      simp only [diagDownLine]
      apply scan4_map_range _ _ (min r c - d.val) (by omega)
      intro j hj
      have e1 : r - min r c + (min r c - d.val + j) = r0.val + j := by omega
      have e2 : c - min r c + (min r c - d.val + j) = c0.val + j := by omega
      rw [e1, e2]
      have := hw ⟨j, by omega⟩
      simp [this]
    simp [checkWin, hs]
  · obtain ⟨r0, c0, d, hr, hc, hw⟩ := h
    have hd1 : d.val ≤ min (5 - r) c := Nat.le_min.mpr ⟨by omega, by omega⟩
    have hr0 : r0.val ≤ 2 := by omega
    have hc0 : c0.val ≤ 3 := by omega
    have hs : scan4 (diagUpLine b r c p) = true := by
      simp only [diagUpLine]
      apply scan4_map_range _ _ (min (5 - r) c - d.val) (by omega)
      intro j hj
      have e1 : r + min (5 - r) c - (min (5 - r) c - d.val + j) =
          r0.val + 3 - j := by omega
      have e2 : c - min (5 - r) c + (min (5 - r) c - d.val + j) =
          c0.val + j := by omega
      rw [e1, e2]
      have := hw ⟨j, by omega⟩
      simp [this]
    simp [checkWin, hs]

/-- Conversely, whenever the scanning code succeeds, a geometric run of four
`p`-cells exists on the board. -/
theorem boardWin_of_checkWin {b : Board} {r c p : Nat} (hr : r < 6) (hc : c < 7)
    (h : checkWin b r c p = true) : boardWin b p := by
  simp only [checkWin, Bool.or_eq_true] at h
  rcases h with ((h | h) | h) | h
  · obtain ⟨i, hi, hv⟩ := exists_of_scan4_map_range _ _ h
    refine Or.inl ⟨⟨r, hr⟩, ⟨i, by omega⟩, ?_⟩
    intro j
    have := hv j.val (by omega)
    simpa using this
  · obtain ⟨i, hi, hv⟩ := exists_of_scan4_map_range _ _ h
    refine Or.inr (Or.inl ⟨⟨i, by omega⟩, ⟨c, hc⟩, ?_⟩)
    intro j
    have := hv j.val (by omega)
    simpa using this
  · rw [diagDownLine] at h
    obtain ⟨i, hi, hv⟩ := exists_of_scan4_map_range _ _ h
    have hb1 : r - min r c + i + 3 < 6 := by omega
    have hb2 : c - min r c + i + 3 < 7 := by omega
    refine Or.inr (Or.inr (Or.inl
      ⟨⟨r - min r c + i, by omega⟩, ⟨c - min r c + i, by omega⟩, ?_⟩))
    intro j
    have := hv j.val (by omega)
    have e1 : r - min r c + (i + j.val) = r - min r c + i + j.val := by omega
    have e2 : c - min r c + (i + j.val) = c - min r c + i + j.val := by omega
    rw [e1, e2] at this
    simpa using this
  · rw [diagUpLine] at h
    obtain ⟨i, hi, hv⟩ := exists_of_scan4_map_range _ _ h
    have hm : min (5 - r) c ≤ 5 - r := Nat.min_le_left _ _
    have hb1 : i + 3 ≤ r + min (5 - r) c := by omega
    have hb2 : c - min (5 - r) c + i + 3 < 7 := by omega
    refine Or.inr (Or.inr (Or.inr
      ⟨⟨r + min (5 - r) c - (i + 3), by omega⟩,
       ⟨c - min (5 - r) c + i, by omega⟩, ?_⟩))
    intro j
    have := hv j.val (by omega)
    have e1 : r + min (5 - r) c - (i + j.val) =
        r + min (5 - r) c - (i + 3) + 3 - j.val := by omega
    have e2 : c - min (5 - r) c + (i + j.val) =
        c - min (5 - r) c + i + j.val := by omega
    rw [e1, e2] at this
    simpa using this

/-! ### The Match (`Game`) state machine -/

/-- The `Game` struct. Players are identified by an abstract player-object id
(`Nat`), standing for the Go `*Player` pointers: `p2 = none` models the nil
`Player2` of a bot game. Wall-clock fields are omitted. -/
structure Game where
  id : String
  p1 : Nat
  p2 : Option Nat
  isBot : Bool
  board : Board
  currentPlayer : Nat
  status : String
  winner : Nat
deriving DecidableEq

/-- `NewGame`: a 1v1 game; the board is the zero value of the Go array. -/
def newGame (id : String) (p1 p2 : Nat) : Game :=
  { id := id, p1 := p1, p2 := some p2, isBot := false, board := board0,
    currentPlayer := Player1, status := "playing", winner := 0 }

/-- `NewBotGame`: a player-vs-bot game. -/
def newBotGame (id : String) (p1 : Nat) : Game :=
  { id := id, p1 := p1, p2 := none, isBot := true, board := board0,
    currentPlayer := Player1, status := "playing", winner := 0 }

/-- Observable side effects of the handlers: frames enqueued to players,
analytics events, timers armed, and the asynchronous bot turn. -/
inductive Out where
  | errTo : Nat → String → Out
  | waitingTo : Nat → Out
  | updateTo : Nat → String → Out
  | reconnectedTo : Nat → String → Out
  | roomCreatedTo : Nat → String → Out
  | roomExpiredTo : Nat → Out
  | eventStarted : String → Out
  | eventMove : String → Out
  | eventEnded : String → Out
  | armMatchmaking : Nat → Out
  | armReconnect : String → Nat → Out
  | armRoomExpiry : String → Nat → Out
  | botTurn : String → Out
deriving DecidableEq

/-- `SendError` on a possibly-nil `*Player` (the bot passes nil and receives
no frames). -/
def errOuts (actor : Option Nat) (msg : String) : List Out :=
  match actor with
  | some pid => [Out.errTo pid msg]
  | none => []

/-- `BroadcastState`: `game_update` to Player1, and to Player2 when the game
is not a bot game and Player2 is non-nil. -/
def broadcastOuts (g : Game) : List Out :=
  Out.updateTo g.p1 g.id ::
    (match g.p2 with
     | some q => if g.isBot then [] else [Out.updateTo q g.id]
     | none => [])

/-- The player-identification chain at the top of `HandleMove`:
`player == g.Player1`, then `!g.IsBot && player == g.Player2`, then
`player == nil && g.IsBot` (the bot's move), else unassociated. -/
def playerNumOf (g : Game) (actor : Option Nat) : Option Nat :=
  if actor = some g.p1 then some Player1
  else if ¬g.isBot ∧ actor = g.p2 then some Player2
  else if actor = none ∧ g.isBot then some Player2
  else none

/-- `endGame`'s mutation of the `Game` struct itself: status, winner. The
persistence/stats/analytics fire-and-forget calls and the deregistration from
the manager table are modelled at the manager level and as the `eventEnded`
output; they do not touch the `Game` fields. -/
def endGame (g : Game) (winner : Nat) : Game :=
  { g with status := "finished", winner := winner }

/-- `(g *Game) HandleMove(player, col)`, returning the updated game and the
observable outputs in program order. -/
def handleMove (g : Game) (actor : Option Nat) (col : Int) : Game × List Out :=
  if g.status ≠ "playing" then (g, [])
  else
    match playerNumOf g actor with
    | none => (g, [])
    | some pn =>
      if pn ≠ g.currentPlayer then (g, errOuts actor "It's not your turn.")
      else
        match makeMove g.board col pn with
        | Except.error e => (g, errOuts actor e)
        | Except.ok (b2, row) =>
          let g1 : Game := { g with board := b2 }
          if checkWin b2 row col.toNat pn then
            let g2 := endGame g1 pn
            (g2, Out.eventMove g.id :: Out.eventEnded g.id :: broadcastOuts g2)
          else if checkDraw b2 then
            let g2 := endGame g1 0
            (g2, Out.eventMove g.id :: Out.eventEnded g.id :: broadcastOuts g2)
          else
            let g2 := { g1 with currentPlayer := 3 - g.currentPlayer }
            (g2, Out.eventMove g.id :: broadcastOuts g2 ++
              (if g2.isBot ∧ g2.currentPlayer = Player2
               then [Out.botTurn g.id] else []))

/-- The guard at the top of `HandleMove`: a move on a non-playing game
returns immediately, emitting nothing. -/
theorem handleMove_not_playing {g : Game} (h : g.status ≠ "playing")
    (actor : Option Nat) (col : Int) : handleMove g actor col = (g, []) := by
  simp [handleMove, h]

theorem playerNumOf_ne_zero {g : Game} {actor : Option Nat} {pn : Nat}
    (h : playerNumOf g actor = some pn) : pn = 1 ∨ pn = 2 := by
  unfold playerNumOf at h
  split_ifs at h <;> simp_all [Player1, Player2]

/-! ### Properties of the row-finding loop of `makeMove` -/

theorem findRowAux_some {b : Board} {col : Nat} :
    ∀ {n r : Nat}, findRowAux b col n = some r →
      r < n ∧ bGet b r col = 0 ∧
        ∀ r2, r < r2 → r2 < n → bGet b r2 col ≠ 0 := by
  intro n
  induction n with
  | zero => intro r h; simp [findRowAux] at h
  | succ m ih =>
    intro r h
    unfold findRowAux at h
    by_cases he : bGet b m col == 0
    · rw [if_pos he] at h
      obtain rfl : m = r := by simpa using h
      exact ⟨by omega, by simpa using he, fun r2 h1 h2 => by omega⟩
    · rw [if_neg he] at h
      obtain ⟨h1, h2, h3⟩ := ih h
      refine ⟨by omega, h2, ?_⟩
      intro r2 hr2 hr2m
      by_cases htop : r2 = m
      · subst htop; simpa using he
      · exact h3 r2 hr2 (by omega)

theorem findRowAux_none {b : Board} {col : Nat} :
    ∀ n, (∀ r, r < n → bGet b r col ≠ 0) → findRowAux b col n = none := by
  intro n
  induction n with
  | zero => intro _; rfl
  | succ m ih =>
    intro h
    unfold findRowAux
    rw [if_neg (by simpa using h m (by omega))]
    exact ih (fun r hr => h r (by omega))

theorem makeMove_ok {b : Board} {col : Int} {p : Nat} {b2 : Board} {row : Nat}
    (h : makeMove b col p = Except.ok (b2, row)) :
    (0 ≤ col ∧ col < 7) ∧ findRow b col.toNat = some row ∧
      b2 = bSet b row col.toNat p := by
  unfold makeMove at h
  split_ifs at h with hcol
  · cases hfr : findRow b col.toNat with
    | none => rw [hfr] at h; cases h
    | some r =>
      rw [hfr] at h
      obtain ⟨h1, h2⟩ : bSet b r col.toNat p = b2 ∧ r = row := by
        simpa using h
      subst h2
      exact ⟨by omega, rfl, h1.symm⟩

instance {ε α : Type} [DecidableEq ε] [DecidableEq α] :
    DecidableEq (Except ε α) := fun a b =>
  match a, b with
  | Except.ok x, Except.ok y =>
    if h : x = y then isTrue (by rw [h]) else isFalse (by simp [h])
  | Except.error x, Except.error y =>
    if h : x = y then isTrue (by rw [h]) else isFalse (by simp [h])
  | Except.ok _, Except.error _ => isFalse (by simp)
  | Except.error _, Except.ok _ => isFalse (by simp)

/-! ### Claim theorems about the Match state machine -/

/-- **C2.** For every in-progress match and any accepted move by the player to
move whose placement completes a horizontal, vertical or either-diagonal run
of four of the mover's marks through the placed cell, `HandleMove` finishes
the match with the mover as winner; and once finished, every further move is
a complete no-op, so the finish transition happens exactly once. -/
theorem c2_win_finishes_once
    (g : Game) (actor : Option Nat) (col : Int) (pn : Nat) (b2 : Board)
    (row : Nat)
    (hst : g.status = "playing")
    (hpn : playerNumOf g actor = some pn)
    (hturn : pn = g.currentPlayer)
    (hmk : makeMove g.board col pn = Except.ok (b2, row))
    (hwin : winThrough b2 row col.toNat pn) :
    ((handleMove g actor col).1.status = "finished" ∧
     (handleMove g actor col).1.winner = pn) ∧
    ∀ a2 c2, handleMove (handleMove g actor col).1 a2 c2 =
      ((handleMove g actor col).1, []) := by
  have hcw : checkWin b2 row col.toNat pn = true := checkWin_of_winThrough hwin
  have hres : handleMove g actor col =
      (endGame { g with board := b2 } pn,
       Out.eventMove g.id :: Out.eventEnded g.id ::
         broadcastOuts (endGame { g with board := b2 } pn)) := by
    subst hturn
    simp [handleMove, hst, hpn, hmk, hcw]
  rw [hres]
  refine ⟨⟨rfl, rfl⟩, ?_⟩
  intro a2 c2
  exact handleMove_not_playing (by simp [endGame]) a2 c2

/-- The board used by the C2 witness: three Player1 discs stacked in column 0
(rows 3–5) and two Player2 discs in column 1. -/
def wBoard : Board := fun r c =>
  if c.val = 0 ∧ 3 ≤ r.val then 1 else if c.val = 1 ∧ 4 ≤ r.val then 2 else 0

def wGame : Game :=
  { id := "w", p1 := 10, p2 := some 11, isBot := false, board := wBoard,
    currentPlayer := 1, status := "playing", winner := 0 }

theorem c2_witness :
    ((handleMove wGame (some 10) 0).1.status = "finished" ∧
     (handleMove wGame (some 10) 0).1.winner = 1) ∧
    ∀ a2 c2, handleMove (handleMove wGame (some 10) 0).1 a2 c2 =
      ((handleMove wGame (some 10) 0).1, []) :=
  c2_win_finishes_once wGame (some 10) 0 1 (bSet wBoard 2 0 1) 2 rfl
    (by decide) rfl (by decide) (by decide)

/-- **C3.** On an in-progress match, a move by a participant who is not the
current turn, and a move by the current player into a column filled to
capacity, are both rejected with an error frame to that participant and leave
the game (board, turn, status) unchanged. -/
theorem c3_rejected_moves_unchanged (g : Game) (pid : Nat) (col : Int)
    (pn : Nat) :
    (g.status = "playing" → playerNumOf g (some pid) = some pn →
      pn ≠ g.currentPlayer →
      handleMove g (some pid) col =
        (g, [Out.errTo pid "It's not your turn."])) ∧
    (g.status = "playing" → playerNumOf g (some pid) = some pn →
      pn = g.currentPlayer → 0 ≤ col → col < 7 →
      (∀ r, r < 6 → bGet g.board r col.toNat ≠ 0) →
      handleMove g (some pid) col =
        (g, [Out.errTo pid "Column is full"])) := by
  constructor
  · intro hst hpn hturn
    simp [handleMove, hst, hpn, hturn, errOuts]
  · intro hst hpn hturn h0 h7 hfull
    have hfr : findRow g.board col.toNat = none := findRowAux_none 6 hfull
    have hmm : makeMove g.board col pn = Except.error "Column is full" := by
      unfold makeMove
      rw [if_neg (by omega), hfr]
    subst hturn
    simp [handleMove, hst, hpn, hmm, errOuts]

/-- The C3 witness game with column 0 filled to capacity. -/
def fullColGame : Game :=
  { id := "fc", p1 := 10, p2 := some 11, isBot := false,
    board := fun r c =>
      if c.val = 0 then (if r.val % 2 = 0 then 1 else 2) else 0,
    currentPlayer := 1, status := "playing", winner := 0 }

theorem c3_witness :
    (handleMove wGame (some 11) 0 =
      (wGame, [Out.errTo 11 "It's not your turn."])) ∧
    (handleMove fullColGame (some 10) 0 =
      (fullColGame, [Out.errTo 10 "Column is full"])) :=
  ⟨(c3_rejected_moves_unchanged wGame 11 0 2).1 rfl (by decide) (by decide),
   (c3_rejected_moves_unchanged fullColGame 10 0 1).2 rfl (by decide) rfl
     (by decide) (by decide) (by decide)⟩

/-- **C4.** If an accepted move leaves the board completely full and the
resulting position contains no run of four of the mover's marks, the match
finishes with outcome draw: winner is recorded as the empty mark, which is
neither participant's mark. -/
theorem c4_full_board_draw
    (g : Game) (actor : Option Nat) (col : Int) (pn : Nat) (b2 : Board)
    (row : Nat)
    (hst : g.status = "playing")
    (hpn : playerNumOf g actor = some pn)
    (hturn : pn = g.currentPlayer)
    (hmk : makeMove g.board col pn = Except.ok (b2, row))
    (hfull : ∀ (r : Fin 6) (c : Fin 7), b2 r c ≠ 0)
    (hnowin : ¬ boardWin b2 pn) :
    (handleMove g actor col).1.status = "finished" ∧
    (handleMove g actor col).1.winner = EmptyCell ∧
    EmptyCell ≠ Player1 ∧ EmptyCell ≠ Player2 := by
  obtain ⟨hcol, hfr, hb2⟩ := makeMove_ok hmk
  have hrow6 : row < 6 := (findRowAux_some hfr).1
  have hc7 : col.toNat < 7 := by omega
  have hcw : checkWin b2 row col.toNat pn = false := by
    cases hw : checkWin b2 row col.toNat pn
    · rfl
    · exact absurd (boardWin_of_checkWin hrow6 hc7 hw) hnowin
  have hcd : checkDraw b2 = true := by
    simp only [checkDraw, List.all_eq_true]
    intro c hc
    rw [List.mem_range] at hc
    have h3 := hfull ⟨0, by omega⟩ ⟨c, hc⟩
    have h4 : bGet b2 0 c ≠ 0 := by
      rw [bGet_eq b2 (by omega) hc]
      exact h3
    simpa using h4
  have hres : handleMove g actor col =
      (endGame { g with board := b2 } 0,
       Out.eventMove g.id :: Out.eventEnded g.id ::
         broadcastOuts (endGame { g with board := b2 } 0)) := by
    subst hturn
    simp [handleMove, hst, hpn, hmk, hcw, hcd]
  rw [hres]
  exact ⟨rfl, rfl, by decide, by decide⟩

/-- The C4 witness: the full draw pattern (bottom three rows get Player1 on
even columns, top three rows get Player1 on odd columns), with cell (0,0)
still open; Player2 fills it. -/
def dBoardPre : Board := fun r c =>
  if r.val = 0 ∧ c.val = 0 then 0
  else if ((3 ≤ r.val) ↔ (c.val % 2 = 0)) then 1 else 2

def dGame : Game :=
  { id := "d", p1 := 10, p2 := some 11, isBot := false, board := dBoardPre,
    currentPlayer := 2, status := "playing", winner := 0 }

theorem c4_witness :
    (handleMove dGame (some 11) 0).1.status = "finished" ∧
    (handleMove dGame (some 11) 0).1.winner = EmptyCell ∧
    EmptyCell ≠ Player1 ∧ EmptyCell ≠ Player2 :=
  c4_full_board_draw dGame (some 11) 0 2 (bSet dBoardPre 0 0 2) 0 rfl
    (by decide) rfl (by decide) (by decide) (by decide)

/-- The C8 failing input: an already-finished match. -/
def finGame : Game :=
  { id := "f", p1 := 10, p2 := some 11, isBot := false, board := board0,
    currentPlayer := 1, status := "finished", winner := 1 }

/-- **C8.** Evaluating `HandleMove` on a finished match at a concrete input:
the move is indeed a complete no-op, but the output list is empty — the code
sends *no* rejection frame to the actor, contradicting the claim (and the
repository's own TESTING.md, which expects an error message for a move after
the game ends). -/
theorem c8_finished_move_silent :
    handleMove finGame (some 10) 3 = (finGame, []) :=
  handleMove_not_playing (by decide) (some 10) 3

/-! ### The gravity invariant (C9) -/

/-- In every column, an occupied cell has every cell below it occupied
(row 0 is the top row, so "below" means a larger row index). -/
def gravityInv (b : Board) : Prop :=
  ∀ (r r2 : Fin 6) (c : Fin 7), b r c ≠ 0 → r < r2 → b r2 c ≠ 0

/-- Every cell of the board is occupied. -/
def fullBoard (b : Board) : Prop := ∀ (r : Fin 6) (c : Fin 7), b r c ≠ 0

/-- Games reachable through the code's own constructors and move handler. -/
inductive Reachable : Game → Prop
  | new : ∀ id p1 p2, Reachable (newGame id p1 p2)
  | newBot : ∀ id p1, Reachable (newBotGame id p1)
  | step : ∀ g actor col, Reachable g → Reachable (handleMove g actor col).1

theorem gravityInv_bSet {b : Board} {col row p : Nat}
    (hg : gravityInv b) (hcol : col < 7) (hfr : findRow b col = some row)
    (hp : p ≠ 0) : gravityInv (bSet b row col p) := by
  obtain ⟨hrow6, hempty, hbelow⟩ := findRowAux_some hfr
  intro r r2 c hne hlt
  rw [← bGet_inbounds (bSet b row col p) r c] at hne
  rw [← bGet_inbounds (bSet b row col p) r2 c]
  rw [Fin.lt_def] at hlt
  by_cases h2 : r2.val = row ∧ c.val = col
  · rw [h2.1, h2.2, bGet_bSet_same b hrow6 hcol]
    exact hp
  · rw [bGet_bSet_other b p h2]
    by_cases h1 : r.val = row ∧ c.val = col
    · have hb := hbelow r2.val (by omega) r2.isLt
      rwa [h1.2]
    · rw [bGet_bSet_other b p h1] at hne
      have := hg r r2 c (by rwa [bGet_inbounds] at hne) (Fin.lt_def.mpr hlt)
      rwa [bGet_inbounds]

theorem gravityInv_handleMove {g : Game} (hg : gravityInv g.board)
    (actor : Option Nat) (col : Int) :
    gravityInv (handleMove g actor col).1.board := by
  unfold handleMove
  split
  · exact hg
  · split
    · exact hg
    · next pn hpn =>
      split
      · exact hg
      · split
        · exact hg
        · next b2 row hmk =>
          obtain ⟨hcol, hfr, hb2⟩ := makeMove_ok hmk
          have hp : pn ≠ 0 := by
            rcases playerNumOf_ne_zero hpn with h | h <;> omega
          have hginv : gravityInv b2 := by
            rw [hb2]
            exact gravityInv_bSet hg (by omega) hfr hp
          split
          · exact hginv
          · split
            · exact hginv
            · exact hginv

/-- **C9.** Every reachable board satisfies the gravity invariant, and on such
boards the top-row-only check of `checkDraw` is equivalent to the whole board
being full. -/
theorem c9_gravity_and_draw_equiv (g : Game) (hreach : Reachable g) :
    gravityInv g.board ∧ (checkDraw g.board = true ↔ fullBoard g.board) := by
  have hgrav : gravityInv g.board := by
    induction hreach with
    | new id p1 p2 =>
      intro r r2 c hne _
      simp [newGame, board0] at hne
    | newBot id p1 =>
      intro r r2 c hne _
      simp [newBotGame, board0] at hne
    | step g actor col hr ih => exact gravityInv_handleMove ih actor col
  refine ⟨hgrav, ?_, ?_⟩
  · intro hcd r c
    have htop : g.board ⟨0, by omega⟩ c ≠ 0 := by
      have h2 := (List.all_eq_true.mp hcd) c.val (List.mem_range.mpr c.isLt)
      rw [← bGet_inbounds g.board ⟨0, by omega⟩ c]
      simpa using h2
    by_cases h0 : r.val = 0
    · have : r = ⟨0, by omega⟩ := Fin.ext h0
      rw [this]
      exact htop
    · exact hgrav ⟨0, by omega⟩ r c htop
        (Fin.lt_def.mpr (show 0 < r.val by omega))
  · intro hf
    simp only [checkDraw, List.all_eq_true]
    intro c hc
    rw [List.mem_range] at hc
    have h3 := hf ⟨0, by omega⟩ ⟨c, hc⟩
    have h4 : bGet g.board 0 c ≠ 0 := by
      rw [bGet_eq g.board (by omega) hc]
      exact h3
    simpa using h4

theorem c9_witness :
    gravityInv (newGame "g" 0 1).board ∧
    (checkDraw (newGame "g" 0 1).board = true ↔
      fullBoard (newGame "g" 0 1).board) :=
  c9_gravity_and_draw_equiv (newGame "g" 0 1) (Reachable.new "g" 0 1)

/-! ### The `GameManager` (Session Director)

The Go maps become association lists with unique keys (`alSet` updates in
place, `alDel` removes the key, mirroring Go map assignment and `delete`).
`heap` is the object store for `Game` values: `endGame` deletes a game from
the manager's table (`gamesTbl`) while the object itself stays referenced by
the timer closures, exactly as the Go pointers do. -/

/-- The mutable per-player fields the manager touches: `Username`, `Game`. -/
structure POb where
  username : String
  game : Option String
deriving DecidableEq

/-- The `GameManager` state. -/
structure MState where
  players : List (String × Nat)
  waiting : Option Nat
  rooms : List (String × Nat)
  gamesTbl : List String
  heap : List (String × Game)
  pobs : List (Nat × POb)
deriving DecidableEq

/-- Map update: overwrite the value at the key or append the entry. -/
def alSet {α β : Type} [BEq α] : List (α × β) → α → β → List (α × β)
  | [], k, v => [(k, v)]
  | (a, b) :: t, k, v =>
    if a == k then (k, v) :: t else (a, b) :: alSet t k v

/-- Go map `delete`: remove the key. -/
def alDel {α β : Type} [BEq α] (l : List (α × β)) (k : α) : List (α × β) :=
  l.filter (fun e => !(e.1 == k))

/-- The player object for an id, defaulting to the zero value. -/
def getPOb (s : MState) (pid : Nat) : POb :=
  (s.pobs.lookup pid).getD { username := "", game := none }

/-- Game lookup through a retained pointer (the object store). -/
def getGame (s : MState) (gid : String) : Option Game := s.heap.lookup gid

def setPOb (s : MState) (pid : Nat) (p : POb) : MState :=
  { s with pobs := alSet s.pobs pid p }

/-- `startGame(p1, p2)`: create the 1v1 game, register it, point both players
at it, broadcast, and emit the `game_started` analytics event. The fresh
`uuid` is passed in as `gid`. -/
def startGame (s : MState) (p1 p2 : Nat) (gid : String) : MState × List Out :=
  let g := newGame gid p1 p2
  let s1 := { s with gamesTbl := gid :: s.gamesTbl,
                     heap := alSet s.heap gid g }
  let s2 := setPOb s1 p1 { getPOb s1 p1 with game := some gid }
  let s3 := setPOb s2 p2 { getPOb s2 p2 with game := some gid }
  (s3, broadcastOuts g ++ [Out.eventStarted gid])

/-- `startBotGame(player)`: the matchmaking-timeout callback. It re-checks
that the player is still the waiting entry and otherwise does nothing. -/
def startBotGame (s : MState) (pid : Nat) (gid : String) : MState × List Out :=
  if s.waiting ≠ some pid then (s, [])
  else
    let g := newBotGame gid pid
    let s1 := { s with waiting := none,
                       gamesTbl := gid :: s.gamesTbl,
                       heap := alSet s.heap gid g }
    let s2 := setPOb s1 pid { getPOb s1 pid with game := some gid }
    (s2, broadcastOuts g ++ [Out.eventStarted gid])

/-- `handleJoin(player, username)`. The fresh game id for the pairing case is
passed in as `gid`. -/
def handleJoin (s : MState) (pid : Nat) (username : String) (gid : String) :
    MState × List Out :=
  if username = "" then (s, [Out.errTo pid "Username cannot be empty."])
  else if (s.players.lookup username).isSome then
    (s, [Out.errTo pid
      "Username already taken. Try 'reconnect' if you were in a game."])
  else
    let s1 := setPOb s pid { getPOb s pid with username := username }
    let s2 := { s1 with players := alSet s1.players username pid }
    match s2.waiting with
    | none =>
      ({ s2 with waiting := some pid },
       [Out.waitingTo pid, Out.armMatchmaking pid])
    | some w =>
      if w = pid then (s2, [])
      else startGame { s2 with waiting := none } w pid gid

/-- `handleMove(player, col)` at manager level: reject when the player has no
current game; otherwise forward to the game object. Only the `Game` fields
change (the Go call mutates the pointed-to object; the manager-table removal
performed by `endGame` is modelled in `endGameM` for the timer path, which is
the only manager-level finish used by the claims). -/
def handleMoveM (s : MState) (pid : Nat) (col : Int) : MState × List Out :=
  match (getPOb s pid).game with
  | none => (s, [Out.errTo pid "You are not in a game."])
  | some gid =>
    match getGame s gid with
    | none => (s, [])
    | some g =>
      let r := handleMove g (some pid) col
      ({ s with heap := alSet s.heap gid r.1 }, r.2)

/-- `endGame`'s manager-level effects, as run by the forfeit timer: update the
game object, delete it from the active table, clear both players' game
references, and emit the `game_ended` analytics event. -/
def endGameM (s : MState) (gid : String) (winner : Nat) : MState × List Out :=
  match getGame s gid with
  | none => (s, [])
  | some g =>
    let g2 := endGame g winner
    let s1 := { s with heap := alSet s.heap gid g2,
                       gamesTbl := s.gamesTbl.filter (fun i => !(i == gid)) }
    let s2 := setPOb s1 g.p1 { getPOb s1 g.p1 with game := none }
    let s3 :=
      match g.p2 with
      | some q => if g.isBot then s2
                  else setPOb s2 q { getPOb s2 q with game := none }
      | none => s2
    (s3, [Out.eventEnded gid])

/-- The reconnection-grace callback armed by `HandleDisconnect`: at expiry it
re-checks only that the game's status is still "playing" and, if so, declares
the other participant the winner and broadcasts. -/
def reconnectTimerFire (s : MState) (gid : String) (pid : Nat) :
    MState × List Out :=
  match getGame s gid with
  | none => (s, [])
  | some g =>
    if g.status ≠ "playing" then (s, [])
    else
      let winner := if pid = g.p1 then Player2 else Player1
      let r := endGameM s gid winner
      (r.1, r.2 ++ broadcastOuts (endGame g winner))

/-- `handleReconnect(player, username)`: look up the *existing* registered
handle for the identity; reject when none exists or it has no active game;
otherwise run the game's `HandleReconnect`, which swaps the transport and
re-sends the state but leaves board/turn/status untouched. -/
def handleReconnect (s : MState) (newPid : Nat) (username : String) :
    MState × List Out :=
  match s.players.lookup username with
  | none => (s, [Out.errTo newPid "No active game found to reconnect to."])
  | some oldPid =>
    match (getPOb s oldPid).game with
    | none => (s, [Out.errTo newPid "No active game found to reconnect to."])
    | some gid =>
      match getGame s gid with
      | none => (s, [])
      | some g =>
        if g.status ≠ "playing" then
          (s, [Out.errTo oldPid "Game has already finished."])
        else (s, [Out.reconnectedTo oldPid gid])

/-- `UnregisterPlayer(player)` (private-rooms version): delete the identity
binding, clear the waiting slot if it was this player, remove the first
private room hosted by this player (the Go loop breaks after one), and, if
the player is in a still-playing game, arm the reconnection-grace timer
(`HandleDisconnect` mutates nothing else). -/
def unregister (s : MState) (pid : Nat) : MState × List Out :=
  let pob := getPOb s pid
  if pob.username = "" then (s, [])
  else
    let s1 := { s with players := alDel s.players pob.username }
    let s2 := if s1.waiting = some pid then { s1 with waiting := none }
              else s1
    let s3 := { s2 with rooms := s2.rooms.eraseP (fun e => e.2 == pid) }
    let outs :=
      match pob.game with
      | some gid =>
        match getGame s3 gid with
        | some g => if g.status = "playing" then [Out.armReconnect gid pid]
                    else []
        | none => []
      | none => []
    (s3, outs)

/-- The room-code character set of `generateRoomCode`. -/
def charset : List Char := "ABCDEFGHIJKLMNOPQRSTUVWXYZ0123456789".toList

/-- One candidate code: six random indexes into the character set. -/
def mkCode (draw : Fin 6 → Fin 36) : String :=
  String.mk ((List.finRange 6).map (fun i => charset.getD (draw i).val 'A'))

/-- `generateRoomCode`: draw candidate codes until one is not an open room;
the stream of random draws is passed explicitly, so the function returns
`none` only when the supply runs out (the Go loop would keep drawing). -/
def generateRoomCode (rooms : List (String × Nat)) :
    List (Fin 6 → Fin 36) → Option String
  | [] => none
  | d :: rest =>
    let code := mkCode d
    if (rooms.lookup code).isSome then generateRoomCode rooms rest
    else some code

/-- `handleCreatePrivateRoom(player, username)`: the room code was generated
before the lock is taken and is passed in as `code`. -/
def handleCreatePrivateRoom (s : MState) (pid : Nat) (username code : String) :
    MState × List Out :=
  if username = "" then (s, [Out.errTo pid "Username cannot be empty."])
  else if (s.players.lookup username).isSome then
    (s, [Out.errTo pid "Username already taken."])
  else
    let s1 := setPOb s pid { getPOb s pid with username := username }
    let s2 := { s1 with players := alSet s1.players username pid,
                        rooms := alSet s1.rooms code pid }
    (s2, [Out.roomCreatedTo pid code, Out.armRoomExpiry code pid])

/-- The room-expiry callback: if the room still exists and is still hosted by
the same player, remove it and notify the host. -/
def roomExpiryFire (s : MState) (code : String) (pid : Nat) :
    MState × List Out :=
  match s.rooms.lookup code with
  | some host =>
    if host = pid then
      ({ s with rooms := alDel s.rooms code }, [Out.roomExpiredTo pid])
    else (s, [])
  | none => (s, [])

/-- `handleJoinPrivateRoom(player, username, roomCode)`. -/
def handleJoinPrivateRoom (s : MState) (pid : Nat) (username code gid : String) :
    MState × List Out :=
  if username = "" then (s, [Out.errTo pid "Username cannot be empty."])
  else if code = "" then (s, [Out.errTo pid "Room code cannot be empty."])
  else if (s.players.lookup username).isSome then
    (s, [Out.errTo pid "Username already taken."])
  else
    match s.rooms.lookup code with
    | none => (s, [Out.errTo pid "Invalid or expired room code."])
    | some host =>
      if (getPOb s host).username = username then
        (s, [Out.errTo pid "You cannot join your own room."])
      else
        let s1 := setPOb s pid { getPOb s pid with username := username }
        let s2 := { s1 with players := alSet s1.players username pid,
                            rooms := alDel s1.rooms code }
        startGame s2 host pid gid

/-! ### Association-list lemmas -/

theorem alSet_lookup_self {α β : Type} [BEq α] [LawfulBEq α]
    (l : List (α × β)) (k : α) (v : β) : (alSet l k v).lookup k = some v := by
  induction l with
  | nil => simp [alSet, List.lookup]
  | cons hd t ih =>
    cases hd with
    | mk a b =>
      unfold alSet
      by_cases h : a = k
      · rw [if_pos (beq_iff_eq.mpr h)]
        simp [List.lookup]
      · rw [if_neg (by simpa using h)]
        have h2 : (k == a) = false := beq_eq_false_iff_ne.mpr (Ne.symm h)
        simp [List.lookup, h2, ih]

theorem alDel_lookup_self {α β : Type} [BEq α] [LawfulBEq α]
    (l : List (α × β)) (k : α) : (alDel l k).lookup k = none := by
  induction l with
  | nil => rfl
  | cons hd t ih =>
    cases hd with
    | mk a b =>
      unfold alDel at ih ⊢
      by_cases h : a = k
      · rw [List.filter_cons_of_neg (by simpa using h)]
        exact ih
      · rw [List.filter_cons_of_pos (by simpa using h)]
        have h2 : (k == a) = false := beq_eq_false_iff_ne.mpr (Ne.symm h)
        simp [List.lookup, h2, ih]

theorem lookup_eq_none_of_not_mem_keys {α β : Type} [BEq α] [LawfulBEq α]
    {l : List (α × β)} {k : α} (h : k ∉ l.map Prod.fst) : l.lookup k = none := by
  induction l with
  | nil => rfl
  | cons hd t ih =>
    cases hd with
    | mk a b =>
      simp only [List.map_cons, List.mem_cons, not_or] at h
      have h2 : (k == a) = false := beq_eq_false_iff_ne.mpr h.1
      simp [List.lookup, h2, ih h.2]

theorem lookup_eraseP_host {rooms : List (String × Nat)} {code : String}
    {pid : Nat} (hnd : (rooms.map Prod.fst).Nodup)
    (hflt : rooms.filter (fun e => e.2 == pid) = [(code, pid)]) :
    (rooms.eraseP (fun e => e.2 == pid)).lookup code = none := by
  induction rooms with
  | nil => simp at hflt
  | cons hd t ih =>
    cases hd with
    | mk a b =>
      simp only [List.map_cons, List.nodup_cons] at hnd
      by_cases hb : b = pid
      · rw [List.filter_cons_of_pos (by simpa using hb)] at hflt
        obtain ⟨⟨ha, _⟩, hrest⟩ : (a = code ∧ b = pid) ∧
            t.filter (fun e => e.2 == pid) = [] := by
          constructor
          · have := (List.cons.injEq _ _ _ _).mp hflt
            exact ⟨by simpa using congrArg Prod.fst this.1,
                   by simpa using congrArg Prod.snd this.1⟩
          · exact ((List.cons.injEq _ _ _ _).mp hflt).2
        subst hb
        simp only [List.eraseP_cons, beq_self_eq_true, cond_true]
        subst ha
        exact lookup_eq_none_of_not_mem_keys hnd.1
      · have hb2 : (b == pid) = false := beq_eq_false_iff_ne.mpr hb
        simp only [List.eraseP_cons, hb2, cond_false]
        rw [List.filter_cons_of_neg (by simpa using hb)] at hflt
        have hmem : (code, pid) ∈ t := by
          have : (code, pid) ∈ t.filter (fun e => e.2 == pid) := by
            rw [hflt]; exact List.mem_singleton.mpr rfl
          exact List.mem_of_mem_filter this
        have hane : a ≠ code := by
          intro he
          subst he
          exact hnd.1 (List.mem_map.mpr ⟨(a, pid), hmem, rfl⟩)
        have h2 : (code == a) = false := beq_eq_false_iff_ne.mpr (Ne.symm hane)
        simp only [List.lookup, h2]
        exact ih hnd.2 hflt

/-! ### Claim theorems about the Session Director -/

/-- **C5.** When two participants pair through `join`, the existing waiting
entry becomes Player1 (A) of the created game and the game starts with the
current turn at Player1; and when the matchmaking timeout fires for a
participant who is still the waiting entry, a bot game is created with that
participant as Player1 and the turn at Player1. -/
theorem c5_first_joiner_is_A (s : MState) (pid w : Nat) (username gid : String) :
    (username ≠ "" → s.players.lookup username = none →
      s.waiting = some w → w ≠ pid →
      getGame (handleJoin s pid username gid).1 gid =
        some (newGame gid w pid) ∧
      (newGame gid w pid).p1 = w ∧ (newGame gid w pid).p2 = some pid ∧
      (newGame gid w pid).currentPlayer = Player1 ∧
      (newGame gid w pid).status = "playing" ∧
      (newGame gid w pid).isBot = false) ∧
    (s.waiting = some pid →
      getGame (startBotGame s pid gid).1 gid = some (newBotGame gid pid) ∧
      (newBotGame gid pid).p1 = pid ∧
      (newBotGame gid pid).currentPlayer = Player1 ∧
      (newBotGame gid pid).status = "playing" ∧
      (newBotGame gid pid).isBot = true) := by
  constructor
  · intro hu hlk hw hwp
    have hiss : (s.players.lookup username).isSome = false := by
      rw [hlk]; rfl
    refine ⟨?_, rfl, rfl, rfl, rfl, rfl⟩
    simp [handleJoin, hu, hiss, setPOb, hw, hwp, startGame, getGame,
      alSet_lookup_self]
  · intro hw
    refine ⟨?_, rfl, rfl, rfl, rfl⟩
    simp [startBotGame, hw, setPOb, getGame, alSet_lookup_self]

def c5State : MState :=
  { players := [("ann", 0)], waiting := some 0, rooms := [], gamesTbl := [],
    heap := [], pobs := [(0, { username := "ann", game := none })] }

theorem c5_witness :
    (getGame (handleJoin c5State 1 "ben" "gAB").1 "gAB" =
      some (newGame "gAB" 0 1) ∧
     (newGame "gAB" 0 1).p1 = 0 ∧ (newGame "gAB" 0 1).p2 = some 1 ∧
     (newGame "gAB" 0 1).currentPlayer = Player1 ∧
     (newGame "gAB" 0 1).status = "playing" ∧
     (newGame "gAB" 0 1).isBot = false) ∧
    (getGame (startBotGame c5State 0 "gBot").1 "gBot" =
      some (newBotGame "gBot" 0) ∧
     (newBotGame "gBot" 0).p1 = 0 ∧
     (newBotGame "gBot" 0).currentPlayer = Player1 ∧
     (newBotGame "gBot" 0).status = "playing" ∧
     (newBotGame "gBot" 0).isBot = true) :=
  ⟨(c5_first_joiner_is_A c5State 1 0 "ben" "gAB").1 (by decide) (by decide)
      rfl (by decide),
   (c5_first_joiner_is_A c5State 0 0 "ben" "gBot").2 rfl⟩

/-- **C6.** The matchmaking-timeout callback is a complete no-op whenever its
player is no longer the waiting entry: the whole manager state (player
registry, waiting slot, match table) is returned unchanged, no match is
created and nothing is emitted. -/
theorem c6_stale_timeout_noop (s : MState) (pid : Nat) (gid : String)
    (h : s.waiting ≠ some pid) : startBotGame s pid gid = (s, []) := by
  simp [startBotGame, h]

theorem c6_witness : startBotGame c5State 1 "gX" = (c5State, []) :=
  c6_stale_timeout_noop c5State 1 "gX" (by decide)

/-- **C7 (amended).** Private rooms: (1) every code produced by
`generateRoomCode` has six characters, all from the alphanumeric character
set, and is not a currently open room; (2) joining with a valid code removes
the room and, in the same step, creates a game with the host as Player1 (A)
and the joiner as Player2 (B); (3) the expiry callback on a still-unclaimed
room removes the code and notifies the host with the room-expired frame;
(4) unregistering a host removes a hosted room's code *provided the host
hosts exactly one open room* — the removal loop in `UnregisterPlayer` breaks
after the first hosted room it finds, so part (4) cannot hold for every
hosted code (see the counterexample below). -/
theorem c7_private_rooms (s : MState) (pid host : Nat)
    (username code gid rcode : String) (draws : List (Fin 6 → Fin 36)) :
    (generateRoomCode s.rooms draws = some rcode →
      rcode.length = 6 ∧ (∀ ch ∈ rcode.data, ch ∈ charset) ∧
        s.rooms.lookup rcode = none) ∧
    (username ≠ "" → code ≠ "" → s.players.lookup username = none →
      s.rooms.lookup code = some host →
      (getPOb s host).username ≠ username →
      (handleJoinPrivateRoom s pid username code gid).1.rooms.lookup code =
        none ∧
      getGame (handleJoinPrivateRoom s pid username code gid).1 gid =
        some (newGame gid host pid) ∧
      (newGame gid host pid).p1 = host ∧
      (newGame gid host pid).p2 = some pid) ∧
    (s.rooms.lookup code = some pid →
      (roomExpiryFire s code pid).1.rooms.lookup code = none ∧
      (roomExpiryFire s code pid).2 = [Out.roomExpiredTo pid]) ∧
    ((getPOb s pid).username ≠ "" → (s.rooms.map Prod.fst).Nodup →
      s.rooms.filter (fun e => e.2 == pid) = [(code, pid)] →
      (unregister s pid).1.rooms.lookup code = none) := by
  refine ⟨?_, ?_, ?_, ?_⟩
  · intro hgen
    induction draws with
    | nil => cases hgen
    | cons d rest ih =>
      unfold generateRoomCode at hgen
      by_cases hex : (s.rooms.lookup (mkCode d)).isSome
      · rw [if_pos hex] at hgen
        exact ih hgen
      · rw [if_neg hex] at hgen
        obtain rfl : mkCode d = rcode := by simpa using hgen
        refine ⟨?_, ?_, Option.not_isSome_iff_eq_none.mp hex⟩
        · simp [mkCode, String.length]
        · intro ch hch
          simp only [mkCode, String.mk, List.mem_map] at hch
          obtain ⟨i, _, rfl⟩ := hch
          have h36 : (d i).val < charset.length := by
            simp [charset]
          rw [List.getD_eq_getElem charset 'A' h36]
          exact List.getElem_mem h36
  · intro hu hc hlk hroom hhost
    have hiss : (s.players.lookup username).isSome = false := by
      rw [hlk]; rfl
    have hres : handleJoinPrivateRoom s pid username code gid =
        startGame
          { setPOb s pid { getPOb s pid with username := username } with
            players := alSet (setPOb s pid
              { getPOb s pid with username := username }).players username pid,
            rooms := alDel (setPOb s pid
              { getPOb s pid with username := username }).rooms code }
          host pid gid := by
      simp only [handleJoinPrivateRoom, if_neg hu, if_neg hc, hiss,
        Bool.false_eq_true, if_false, hroom, if_neg hhost]
    rw [hres]
    refine ⟨?_, ?_, rfl, rfl⟩
    · simp only [startGame, setPOb]
      exact alDel_lookup_self s.rooms code
    · simp only [startGame, setPOb, getGame]
      exact alSet_lookup_self _ gid (newGame gid host pid)
  · intro hroom
    simp [roomExpiryFire, hroom, alDel_lookup_self]
  · intro hname hnd hflt
    have hres : (unregister s pid).1.rooms =
        s.rooms.eraseP (fun e => e.2 == pid) := by
      simp only [unregister, if_neg hname]
      by_cases hwa : s.waiting = some pid <;> simp [hwa]
    rw [hres]
    exact lookup_eraseP_host hnd hflt

/-- C7 counterexample trace, step 0: the empty manager. -/
def c7dup0 : MState :=
  { players := [], waiting := none, rooms := [], gamesTbl := [], heap := [],
    pobs := [] }

/-- C7 counterexample trace: connection 0 creates a room as "u1". -/
def c7dup1 : MState := (handleCreatePrivateRoom c7dup0 0 "u1" "CODE01").1

/-- C7 counterexample trace: the same connection creates a second room as
"u2" — `handleCreatePrivateRoom` never checks that the connection already has
a username, and "u2" is free in the registry, so the create succeeds and the
same player object now hosts two open rooms. -/
def c7dup2 : MState := (handleCreatePrivateRoom c7dup1 0 "u2" "CODE02").1

/-- **C7, refuted as stated.** After the reachable double-create trace the
one connection hosts the two open rooms CODE01 and CODE02; when it
disconnects, `UnregisterPlayer`'s removal loop deletes only one hosted room
(it breaks after the first match), so CODE02 is still in the open-room
registry, still hosted by the disconnected player — the claim's "a host
disconnecting before anyone joins removes the code" fails for it. -/
theorem c7_counterexample_double_host :
    c7dup2.rooms = [("CODE01", 0), ("CODE02", 0)] ∧
    (getPOb c7dup2 0).username = "u2" ∧
    (unregister c7dup2 0).1.rooms.lookup "CODE01" = none ∧
    (unregister c7dup2 0).1.rooms.lookup "CODE02" = some 0 := by
  refine ⟨?_, ?_, ?_, ?_⟩ <;> decide

def c7State : MState :=
  { players := [("host", 7)], waiting := none, rooms := [("ABC123", 7)],
    gamesTbl := [], heap := [],
    pobs := [(7, { username := "host", game := none })] }

theorem c7_witness :
    ((mkCode (fun _ => 1)).length = 6 ∧
     (∀ ch ∈ (mkCode (fun _ => 1)).data, ch ∈ charset) ∧
     c7State.rooms.lookup (mkCode (fun _ => 1)) = none) ∧
    ((handleJoinPrivateRoom c7State 8 "guest" "ABC123" "pg").1.rooms.lookup
        "ABC123" = none ∧
     getGame (handleJoinPrivateRoom c7State 8 "guest" "ABC123" "pg").1 "pg" =
        some (newGame "pg" 7 8) ∧
     (newGame "pg" 7 8).p1 = 7 ∧ (newGame "pg" 7 8).p2 = some 8) ∧
    ((roomExpiryFire c7State "ABC123" 7).1.rooms.lookup "ABC123" = none ∧
     (roomExpiryFire c7State "ABC123" 7).2 = [Out.roomExpiredTo 7]) ∧
    ((unregister c7State 7).1.rooms.lookup "ABC123" = none) := by
  have h1 := (c7_private_rooms c7State 8 7 "guest" "ABC123" "pg"
    (mkCode (fun _ => 1)) [fun _ => 1]).1 (by decide)
  have h2 := (c7_private_rooms c7State 8 7 "guest" "ABC123" "pg" ""
    []).2.1 (by decide) (by decide) (by decide) (by decide) (by decide)
  have h3 := (c7_private_rooms c7State 7 7 "guest" "ABC123" "pg" ""
    []).2.2.1 (by decide)
  have h4 := (c7_private_rooms c7State 7 7 "guest" "ABC123" "pg" ""
    []).2.2.2 (by decide) (by decide) (by decide)
  exact ⟨h1, h2, h3, h4⟩

/-- **C10.** For an open private room whose host is registered in the player
registry under the host's own username, a join-private-room request with that
same username is stopped by the earlier "Username already taken." check, with
the room left in the registry and no game created; the dedicated
"You cannot join your own room." branch can only fire when the username is
*not* registered (so, given the claim's premise, it is unreachable), and that
rejection also leaves the state unchanged. -/
theorem c10_own_room_join_rejected (s : MState) (pid host : Nat)
    (username code gid : String) :
    (username ≠ "" → code ≠ "" → s.rooms.lookup code = some host →
      (getPOb s host).username = username →
      (s.players.lookup username).isSome →
      handleJoinPrivateRoom s pid username code gid =
        (s, [Out.errTo pid "Username already taken."])) ∧
    (username ≠ "" → code ≠ "" → s.players.lookup username = none →
      s.rooms.lookup code = some host →
      (getPOb s host).username = username →
      handleJoinPrivateRoom s pid username code gid =
        (s, [Out.errTo pid "You cannot join your own room."])) := by
  constructor
  · intro hu hc _ _ htaken
    simp only [handleJoinPrivateRoom, if_neg hu, if_neg hc, htaken, if_true]
  · intro hu hc hfree hroom hown
    have hiss : (s.players.lookup username).isSome = false := by
      rw [hfree]; rfl
    simp only [handleJoinPrivateRoom, if_neg hu, if_neg hc, hiss,
      Bool.false_eq_true, if_false, hroom, if_pos hown]

def c10State : MState :=
  { players := [], waiting := none, rooms := [("ABC123", 7)],
    gamesTbl := [], heap := [],
    pobs := [(7, { username := "host", game := none })] }

theorem c10_witness :
    (handleJoinPrivateRoom c7State 8 "host" "ABC123" "pg" =
      (c7State, [Out.errTo 8 "Username already taken."])) ∧
    (handleJoinPrivateRoom c10State 8 "host" "ABC123" "pg" =
      (c10State, [Out.errTo 8 "You cannot join your own room."])) :=
  ⟨(c10_own_room_join_rejected c7State 8 7 "host" "ABC123" "pg").1 (by decide)
      (by decide) (by decide) (by decide) (by decide),
   (c10_own_room_join_rejected c10State 8 7 "host" "ABC123" "pg").2
      (by decide) (by decide) (by decide) (by decide) (by decide)⟩

/-! ### C1: the disconnect / reconnect / grace-timer trace -/

/-- C1 trace, step 0: the empty manager. -/
def c1s0 : MState :=
  { players := [], waiting := none, rooms := [], gamesTbl := [], heap := [],
    pobs := [] }

/-- C1 trace: alice (player object 0) joins and waits. -/
def c1s1 : MState := (handleJoin c1s0 0 "alice" "gA").1

/-- C1 trace: bob (player object 1) joins; game "g1" starts with alice as
Player1. -/
def c1s2 : MState := (handleJoin c1s1 1 "bob" "g1").1

/-- C1 trace: alice's transport drops; `UnregisterPlayer` runs. -/
def c1s3 : MState := (unregister c1s2 0).1

/-- **C1, evaluated at the failing trace.** The game is in progress and
alice's disconnect arms the grace timer — but `UnregisterPlayer` has already
deleted "alice" from the player registry, so her reconnect before the timer
fires is rejected with "No active game found to reconnect to." instead of
restoring the match. Moreover, even on a state where the registry entry is
still present so that the reconnect succeeds (returning the state unchanged,
hence with status still "playing"), the grace-timer callback — whose only
re-check is the status — still fires the forfeit and declares bob (Player2)
the winner. -/
theorem c1_reconnect_does_not_cancel_forfeit :
    ((getGame c1s2 "g1").map Game.status = some "playing" ∧
     (unregister c1s2 0).2 = [Out.armReconnect "g1" 0]) ∧
    (handleReconnect c1s3 2 "alice").2 =
      [Out.errTo 2 "No active game found to reconnect to."] ∧
    handleReconnect c1s2 2 "alice" = (c1s2, [Out.reconnectedTo 0 "g1"]) ∧
    ((reconnectTimerFire c1s2 "g1" 0).1.heap.lookup "g1").map Game.status =
      some "finished" ∧
    ((reconnectTimerFire c1s2 "g1" 0).1.heap.lookup "g1").map Game.winner =
      some Player2 := by
  refine ⟨⟨?_, ?_⟩, ?_, ?_, ?_, ?_⟩ <;> decide

/-- The half of C1 the code does satisfy: with no reconnect, the grace timer
declares the other participant the winner, and a second firing of the timer
(or any later firing after the game finished) is a no-op, so the forfeit
happens exactly once. -/
theorem c1_forfeit_exactly_once :
    ((reconnectTimerFire c1s3 "g1" 0).1.heap.lookup "g1").map Game.winner =
      some Player2 ∧
    reconnectTimerFire (reconnectTimerFire c1s3 "g1" 0).1 "g1" 0 =
      ((reconnectTimerFire c1s3 "g1" 0).1, []) := by
  refine ⟨?_, ?_⟩ <;> decide

end ConFour
